import Mathlib

/-!
# Expense Splitter: the ledger logic of `src/App.js`

A shallow embedding of the component `ExpenseSplitterApp`: its six `useState`
cells, the handlers `addExpense`, `addParticipant`, `removeParticipant`,
`clearExpenses`, and the derived view `calculateBalances`.

JavaScript numbers are modelled as exact rationals extended with `NaN` and the
two infinities. Rounding and the sign of zero are not modelled. The built-ins
`Number`, `isNaN` and `parseFloat` follow the ECMAScript grammar of
`StringNumericLiteral` and `StrDecimalLiteral`. The object `balances` is a plain
object: its own properties are a table from names to numbers, and a write to the
key `__proto__` goes to the inherited accessor and creates no property.

Each handler reads the state of the current render and either returns through
an error alert or calls its state setters once; the events of the user interface
are run one after the other.
-/

namespace ExpenseSplitter

/-! ## Numbers -/

/-- A JavaScript number: an exact rational, `NaN`, `+Infinity` or `-Infinity`. -/
inductive JsNum where
  | nan
  | posInf
  | negInf
  | fin (q : ℚ)
  deriving DecidableEq

namespace JsNum

/-- The JS operator `a + b` on numbers. -/
def add : JsNum → JsNum → JsNum
  | nan, _ => nan
  | posInf, nan => nan
  | posInf, negInf => nan
  | posInf, posInf => posInf
  | posInf, fin _ => posInf
  | negInf, nan => nan
  | negInf, posInf => nan
  | negInf, negInf => negInf
  | negInf, fin _ => negInf
  | fin _, nan => nan
  | fin _, posInf => posInf
  | fin _, negInf => negInf
  | fin a, fin b => fin (a + b)

/-- The JS unary minus. -/
def neg : JsNum → JsNum
  | nan => nan
  | posInf => negInf
  | negInf => posInf
  | fin a => fin (-a)

/-- The JS operator `a - b` on numbers. -/
def sub (a b : JsNum) : JsNum := add a (neg b)

/-- The JS operator `a / n` for a divisor that is an array length. -/
def divNat : JsNum → Nat → JsNum
  | nan, _ => nan
  | posInf, _ => posInf
  | negInf, _ => negInf
  | fin q, n =>
    if n = 0 then (if 0 < q then posInf else if q < 0 then negInf else nan)
    else fin (q / (n : ℚ))

/-- The JS comparison `a <= 0`. -/
def leZero : JsNum → Bool
  | nan => false
  | posInf => false
  | negInf => true
  | fin q => decide (q ≤ 0)

/-- The JS comparison `a > 0`. -/
def gtZero : JsNum → Bool
  | nan => false
  | posInf => true
  | negInf => false
  | fin q => decide (0 < q)

/-- Whether the number is neither `NaN` nor infinite. -/
def isFinite : JsNum → Bool
  | fin _ => true
  | _ => false

end JsNum

/-! ## String to number conversion -/

/-- The characters of `StrWhiteSpaceChar`: white space and line terminators. -/
def isStrWhiteSpaceChar (c : Char) : Bool :=
  [0x9, 0xA, 0xB, 0xC, 0xD, 0x20, 0xA0, 0x1680, 0x2028, 0x2029, 0x202F, 0x205F,
    0x3000, 0xFEFF].contains c.toNat
  || (decide (0x2000 ≤ c.toNat) && decide (c.toNat ≤ 0x200A))

/-- The value of a digit character in the given base, when it is one. -/
def digitValue (base : Nat) (c : Char) : Option Nat :=
  let n := c.toNat
  let v : Option Nat :=
    if 48 ≤ n ∧ n ≤ 57 then some (n - 48)
    else if 97 ≤ n ∧ n ≤ 102 then some (n - 87)
    else if 65 ≤ n ∧ n ≤ 70 then some (n - 55)
    else none
  match v with
  | some d => if d < base then some d else none
  | none => none

/-- The longest run of digits of the given base at the head of the input, and the rest. -/
def takeDigits (base : Nat) : List Char → List Nat × List Char
  | [] => ([], [])
  | c :: cs =>
    match digitValue base c with
    | some d => (d :: (takeDigits base cs).1, (takeDigits base cs).2)
    | none => ([], c :: cs)

/-- The number written by a list of digits, most significant first. -/
def digitsValue (base : Nat) (ds : List Nat) : Nat :=
  ds.foldl (fun acc d => acc * base + d) 0

/-- The optional `ExponentPart` at the head of the input: its value and the rest.
An exponent indicator that is not followed by a signed integer is not consumed. -/
def takeExponent (cs : List Char) : Int × List Char :=
  match cs with
  | [] => (0, cs)
  | c :: r =>
    if c = 'e' ∨ c = 'E' then
      match r with
      | [] => (0, cs)
      | sgn :: r1 =>
        if sgn = '+' then
          (if (takeDigits 10 r1).1 = [] then (0, cs)
           else ((digitsValue 10 (takeDigits 10 r1).1 : Nat), (takeDigits 10 r1).2))
        else if sgn = '-' then
          (if (takeDigits 10 r1).1 = [] then (0, cs)
           else (-((digitsValue 10 (takeDigits 10 r1).1 : Nat) : Int), (takeDigits 10 r1).2))
        else
          (if (takeDigits 10 r).1 = [] then (0, cs)
           else ((digitsValue 10 (takeDigits 10 r).1 : Nat), (takeDigits 10 r).2))
    else (0, cs)

/-- The rational `m * 10 ^ e`. -/
def scale10 (m : Nat) (e : Int) : ℚ :=
  if 0 ≤ e then (m : ℚ) * (10 : ℚ) ^ e.toNat else (m : ℚ) / (10 : ℚ) ^ (-e).toNat

/-- The longest head of the input that is a `StrUnsignedDecimalLiteral`: its value and the rest. -/
def takeStrUnsignedDecimalLiteral (cs : List Char) : Option (JsNum × List Char) :=
  if "Infinity".toList.isPrefixOf cs then some (JsNum.posInf, cs.drop 8)
  else
    let ip := (takeDigits 10 cs).1
    let r1 := (takeDigits 10 cs).2
    match r1 with
    | [] => if ip = [] then none else some (JsNum.fin (scale10 (digitsValue 10 ip) 0), [])
    | c :: r2 =>
      if c = '.' then
        let fp := (takeDigits 10 r2).1
        let r3 := (takeDigits 10 r2).2
        if ip = [] ∧ fp = [] then none
        else
          some (JsNum.fin (scale10 (digitsValue 10 (ip ++ fp))
            ((takeExponent r3).1 - (fp.length : Int))), (takeExponent r3).2)
      else if ip = [] then none
      else some (JsNum.fin (scale10 (digitsValue 10 ip) (takeExponent r1).1), (takeExponent r1).2)

/-- The longest head of the input that is a `StrDecimalLiteral` (an optionally signed
unsigned literal): its value and the rest. -/
def takeStrDecimalLiteral (cs : List Char) : Option (JsNum × List Char) :=
  match cs with
  | [] => none
  | c :: r =>
    if c = '+' then takeStrUnsignedDecimalLiteral r
    else if c = '-' then
      match takeStrUnsignedDecimalLiteral r with
      | some (v, rest) => some (JsNum.neg v, rest)
      | none => none
    else takeStrUnsignedDecimalLiteral cs

/-- The value of a whole input that is a `NonDecimalIntegerLiteral`
(`0x`, `0o` or `0b` followed by at least one digit of that base). -/
def nonDecimalIntegerLiteral (cs : List Char) : Option JsNum :=
  match cs with
  | z :: x :: ds =>
    let base : Nat :=
      if x = 'x' ∨ x = 'X' then 16
      else if x = 'o' ∨ x = 'O' then 8
      else if x = 'b' ∨ x = 'B' then 2
      else 0
    if z = '0' ∧ base ≠ 0 ∧ ds ≠ [] ∧ (takeDigits base ds).2 = [] then
      some (JsNum.fin (digitsValue base (takeDigits base ds).1 : Nat))
    else none
  | _ => none

/-- The input without leading and trailing white space. -/
def trimString (cs : List Char) : List Char :=
  ((cs.dropWhile isStrWhiteSpaceChar).reverse.dropWhile isStrWhiteSpaceChar).reverse

/-- The JS call `Number(s)` on a string (`StringToNumber`). -/
def Number (s : String) : JsNum :=
  let t := trimString s.toList
  if t = [] then JsNum.fin 0
  else
    match takeStrDecimalLiteral t with
    | some (v, []) => v
    | _ =>
      match nonDecimalIntegerLiteral t with
      | some v => v
      | none => JsNum.nan

/-- The JS call `isNaN(s)` on a string: the string is converted with `Number` first. -/
def isNaN (s : String) : Bool :=
  match Number s with
  | JsNum.nan => true
  | _ => false

/-- The JS call `parseFloat(s)`: the longest `StrDecimalLiteral` after leading white space. -/
def parseFloat (s : String) : JsNum :=
  match takeStrDecimalLiteral (s.toList.dropWhile isStrWhiteSpaceChar) with
  | some (v, _) => v
  | none => JsNum.nan

/-! ## Component state -/

/-- One entry of the `expenses` array. -/
structure Expense where
  id : String
  description : String
  amount : JsNum
  payer : String
  deriving DecidableEq

/-- The six `useState` cells of `ExpenseSplitterApp`. -/
structure AppState where
  participants : List String
  expenses : List Expense
  description : String
  amount : String
  payer : String
  newParticipant : String
  deriving DecidableEq

/-- The state of the first render. -/
def initialState : AppState :=
  { participants := ["Ayush", "Harsh", "Laxmikant", "Mudassir"]
    expenses := []
    description := ""
    amount := ""
    payer := ""
    newParticipant := "" }

/-- The alerts with which a handler returns before calling any state setter. -/
inductive Alert where
  | invalidInput
  | invalidPayer
  | cannotRemove
  deriving DecidableEq

/-! ## Handlers

A handler that shows an error alert and returns is `Except.error`: no state
setter has run, the state stays as it was. Otherwise it is `Except.ok` with the
state after the setters. -/

/-- The handler `addExpense`; `now` is the value of `Date.now()`. -/
def addExpense (now : Nat) (s : AppState) : Except Alert AppState :=
  if s.description = "" ∨ s.amount = "" ∨ s.payer = "" ∨ isNaN s.amount = true
      ∨ (Number s.amount).leZero = true then
    Except.error Alert.invalidInput
  else if ¬ s.payer ∈ s.participants then
    Except.error Alert.invalidPayer
  else
    Except.ok
      { s with
        expenses := s.expenses ++
          [{ id := toString now, description := s.description,
             amount := parseFloat s.amount, payer := s.payer }]
        description := ""
        amount := ""
        payer := "" }

/-- The handler `addParticipant`. -/
def addParticipant (s : AppState) : Except Alert AppState :=
  if s.newParticipant = "" ∨ s.newParticipant ∈ s.participants then
    Except.error Alert.invalidInput
  else
    Except.ok { s with participants := s.participants ++ [s.newParticipant], newParticipant := "" }

/-- The handler `removeParticipant`. -/
def removeParticipant (participant : String) (s : AppState) : Except Alert AppState :=
  if s.expenses.any (fun expense => decide (expense.payer = participant)) = true then
    Except.error Alert.cannotRemove
  else
    Except.ok { s with participants := s.participants.filter (fun p => decide (p ≠ participant)) }

/-- The handler `clearExpenses`; its alert is a notice of success, it never returns early. -/
def clearExpenses (s : AppState) : Except Alert AppState :=
  Except.ok { s with expenses := [] }

/-- The state after a handler ran from `s`. -/
def commit (s : AppState) : Except Alert AppState → AppState
  | Except.ok t => t
  | Except.error _ => s

/-- Whether a handler returned through an error alert. -/
def rejected : Except Alert AppState → Bool
  | Except.ok _ => false
  | Except.error _ => true

/-! ## Balances -/

/-- The own properties of a plain object with number values, in creation order (the order
in which `Object.entries` lists integer-like keys is not modelled). -/
abbrev JsObject := List (String × JsNum)

/-- The read `o[k]` in a numeric context; a missing own property reads as `undefined`,
which converts to `NaN`. In `calculateBalances` every key that is read has been written by
the first loop; for `__proto__` the value computed from the read is dropped by `setProp`. -/
def getProp (o : JsObject) (k : String) : JsNum :=
  match o.lookup k with
  | some v => v
  | none => JsNum.nan

/-- The write `o[k] = v` of a number on an object created by `{}`. The key `__proto__`
resolves to the accessor inherited from `Object.prototype`, whose setter ignores a value
that is not an object: no own property is created. -/
def setProp (o : JsObject) (k : String) (v : JsNum) : JsObject :=
  if k = "__proto__" then o
  else if o.any (fun kv => decide (kv.1 = k)) = true then
    o.map (fun kv => if kv.1 = k then (kv.1, v) else kv)
  else o ++ [(k, v)]

/-- The function `calculateBalances`. -/
def calculateBalances (s : AppState) : JsObject :=
  let balances : JsObject :=
    s.participants.foldl (fun b participant => setProp b participant (JsNum.fin 0)) []
  s.expenses.foldl
    (fun b expense =>
      let perPerson := JsNum.divNat expense.amount s.participants.length
      s.participants.foldl
        (fun b participant =>
          if participant = expense.payer then
            setProp b participant
              (JsNum.add (getProp b participant) (JsNum.sub expense.amount perPerson))
          else
            setProp b participant (JsNum.sub (getProp b participant) perPerson))
        b)
    balances

/-- The sum of the values of an object. -/
def sumValues (o : JsObject) : JsNum :=
  o.foldl (fun acc kv => JsNum.add acc kv.2) (JsNum.fin 0)

/-- The update that one expense makes to the balance `v` of `participant`, with `n` the
number of participants: the body of the inner loop of `calculateBalances`. -/
def applyExpense (expense : Expense) (n : Nat) (participant : String) (v : JsNum) : JsNum :=
  if participant = expense.payer then
    JsNum.add v (JsNum.sub expense.amount (JsNum.divNat expense.amount n))
  else JsNum.sub v (JsNum.divNat expense.amount n)

/-- The balance of one participant: the updates of all expenses in order, from 0. -/
def balanceOf (s : AppState) (participant : String) : JsNum :=
  s.expenses.foldl (fun v expense => applyExpense expense s.participants.length participant v)
    (JsNum.fin 0)

/-- The sum of the amounts of a list of expenses. -/
def sumAmounts (es : List Expense) : JsNum :=
  (es.map Expense.amount).foldr JsNum.add (JsNum.fin 0)

/-- The equal-split reference, in the words of the specification: what the participant
paid, minus the total of all expenses divided by the current number of participants. -/
def equalSplit (s : AppState) (participant : String) : JsNum :=
  JsNum.sub (sumAmounts (s.expenses.filter (fun e => decide (e.payer = participant))))
    (JsNum.divNat (sumAmounts s.expenses) s.participants.length)

/-- The rational value of a finite number, 0 for the others. -/
def JsNum.toRat : JsNum → ℚ
  | JsNum.fin q => q
  | _ => 0

/-! ## Events and the reachable states -/

/-- The events of the user interface. -/
inductive Event where
  | setDescription (text : String)
  | setAmount (text : String)
  | setPayer (text : String)
  | setNewParticipant (text : String)
  | addExpense (now : Nat)
  | addParticipant
  | removeParticipant (participant : String)
  | clearExpenses

/-- The state after one event. -/
def step (s : AppState) : Event → AppState
  | Event.setDescription t => { s with description := t }
  | Event.setAmount t => { s with amount := t }
  | Event.setPayer t => { s with payer := t }
  | Event.setNewParticipant t => { s with newParticipant := t }
  | Event.addExpense now => commit s (addExpense now s)
  | Event.addParticipant => commit s (addParticipant s)
  | Event.removeParticipant p => commit s (removeParticipant p s)
  | Event.clearExpenses => commit s (clearExpenses s)

/-- The state after a sequence of events. -/
def run (s : AppState) (events : List Event) : AppState :=
  events.foldl step s

/-- The states the component can be in. -/
def Reachable (s : AppState) : Prop :=
  ∃ events : List Event, run initialState events = s

/-- The events of `addParticipant(name)` for each name in order: the name is typed
into the field, then the button is pressed. -/
def addAll (names : List String) : List Event :=
  names.flatMap (fun name => [Event.setNewParticipant name, Event.addParticipant])

/-- The events of `addExpense(description, amount, payer)`: the three fields are typed,
then the button is pressed at time `now`. -/
def enterExpense (description amount payer : String) (now : Nat) : List Event :=
  [Event.setDescription description, Event.setAmount amount, Event.setPayer payer,
    Event.addExpense now]

/-- The invariant kept by every event: names are unique, no name is empty, and
every payer is a participant. -/
def Inv (s : AppState) : Prop :=
  s.participants.Nodup ∧ "" ∉ s.participants ∧ ∀ e ∈ s.expenses, e.payer ∈ s.participants


/-! ## Arithmetic of `JsNum` -/

theorem jsAdd_comm (a b : JsNum) : JsNum.add a b = JsNum.add b a := by
  cases a <;> cases b <;> simp [JsNum.add, add_comm]

theorem jsAdd_assoc (a b c : JsNum) :
    JsNum.add (JsNum.add a b) c = JsNum.add a (JsNum.add b c) := by
  cases a <;> cases b <;> cases c <;> simp [JsNum.add, add_assoc]

theorem jsAdd_left_comm (a b c : JsNum) :
    JsNum.add a (JsNum.add b c) = JsNum.add b (JsNum.add a c) := by
  rw [← jsAdd_assoc, jsAdd_comm a b, jsAdd_assoc]

theorem jsAdd_zero (a : JsNum) : JsNum.add a (JsNum.fin 0) = a := by
  cases a <;> simp [JsNum.add]

theorem jsZero_add (a : JsNum) : JsNum.add (JsNum.fin 0) a = a := by
  cases a <;> simp [JsNum.add]

theorem jsNeg_add (a b : JsNum) :
    JsNum.neg (JsNum.add a b) = JsNum.add (JsNum.neg a) (JsNum.neg b) := by
  cases a <;> cases b <;> simp [JsNum.add, JsNum.neg, add_comm]

theorem jsDivNat_add (a b : JsNum) (n : Nat) (hn : n ≠ 0) :
    JsNum.divNat (JsNum.add a b) n = JsNum.add (JsNum.divNat a n) (JsNum.divNat b n) := by
  cases a <;> cases b <;> simp [JsNum.add, JsNum.divNat, hn, add_div]

theorem jsDivNat_zero (n : Nat) (hn : n ≠ 0) :
    JsNum.divNat (JsNum.fin 0) n = JsNum.fin 0 := by
  simp [JsNum.divNat, hn]


/-! ## Evaluations of the string conversions and of some runs -/

theorem number_100 : Number "100" = JsNum.fin 100 := by
  simp [Number, trimString, isStrWhiteSpaceChar, takeStrDecimalLiteral,
    takeStrUnsignedDecimalLiteral, takeDigits, digitValue, takeExponent, digitsValue, scale10]

theorem parseFloat_100 : parseFloat "100" = JsNum.fin 100 := by
  simp [parseFloat, isStrWhiteSpaceChar, takeStrDecimalLiteral,
    takeStrUnsignedDecimalLiteral, takeDigits, digitValue, takeExponent, digitsValue, scale10]

theorem number_hex : Number "0x10" = JsNum.fin 16 := by
  simp [Number, trimString, isStrWhiteSpaceChar, takeStrDecimalLiteral,
    takeStrUnsignedDecimalLiteral, takeDigits, digitValue, takeExponent, digitsValue, scale10,
    nonDecimalIntegerLiteral]

theorem parseFloat_hex : parseFloat "0x10" = JsNum.fin 0 := by
  simp [parseFloat, isStrWhiteSpaceChar, takeStrDecimalLiteral,
    takeStrUnsignedDecimalLiteral, takeDigits, digitValue, takeExponent, digitsValue, scale10]

theorem number_infinity : Number "Infinity" = JsNum.posInf := by decide

theorem parseFloat_infinity : parseFloat "Infinity" = JsNum.posInf := by decide

theorem run_lunch : run initialState (enterExpense "lunch" "100" "Ayush" 1)
    = { initialState with expenses := [⟨"1", "lunch", JsNum.fin 100, "Ayush"⟩] } := by
  simp [run, enterExpense, step, addExpense, commit, initialState, isNaN, number_100,
    parseFloat_100, JsNum.leZero]
  rfl


theorem run_proto_lunch :
    run initialState (addAll ["__proto__"] ++ enterExpense "lunch" "100" "Ayush" 1)
      = { initialState with
          participants := ["Ayush", "Harsh", "Laxmikant", "Mudassir", "__proto__"]
          expenses := [⟨"1", "lunch", JsNum.fin 100, "Ayush"⟩] } := by
  simp [run, addAll, enterExpense, step, addExpense, addParticipant, commit, initialState,
    isNaN, number_100, parseFloat_100, JsNum.leZero]
  rfl

theorem balances_proto_lunch :
    calculateBalances { initialState with
          participants := ["Ayush", "Harsh", "Laxmikant", "Mudassir", "__proto__"]
          expenses := [⟨"1", "lunch", JsNum.fin 100, "Ayush"⟩] }
      = [("Ayush", JsNum.fin 80), ("Harsh", JsNum.fin (-20)), ("Laxmikant", JsNum.fin (-20)),
          ("Mudassir", JsNum.fin (-20))] := by
  simp [calculateBalances, initialState, setProp, getProp, JsNum.add, JsNum.sub, JsNum.neg,
    JsNum.divNat, List.lookup]
  norm_num

theorem run_infinity :
    run initialState (enterExpense "gift" "Infinity" "Ayush" 2)
      = { initialState with expenses := [⟨"2", "gift", JsNum.posInf, "Ayush"⟩] } := by
  simp [run, enterExpense, step, addExpense, commit, initialState,
    isNaN, number_infinity, parseFloat_infinity, JsNum.leZero]
  rfl

theorem balances_infinity :
    calculateBalances { initialState with expenses := [⟨"2", "gift", JsNum.posInf, "Ayush"⟩] }
      = [("Ayush", JsNum.nan), ("Harsh", JsNum.negInf), ("Laxmikant", JsNum.negInf),
          ("Mudassir", JsNum.negInf)] := by
  simp [calculateBalances, initialState, setProp, getProp, JsNum.add, JsNum.sub, JsNum.neg,
    JsNum.divNat, List.lookup]


/-! ## Invariants of the reachable states -/

theorem inv_initialState : Inv initialState := by
  refine ⟨by decide, by decide, ?_⟩
  intro e he
  simp [initialState] at he

theorem inv_addExpense (now : Nat) (s : AppState) (h : Inv s) :
    Inv (commit s (addExpense now s)) := by
  obtain ⟨h1, h2, h3⟩ := h
  unfold addExpense
  split_ifs with c1 c2
  · exact ⟨h1, h2, h3⟩
  · refine ⟨h1, h2, ?_⟩
    intro e he
    simp only [commit, List.mem_append, List.mem_singleton] at he
    rcases he with he | he
    · exact h3 e he
    · subst he
      exact c2
  · exact ⟨h1, h2, h3⟩

theorem inv_addParticipant (s : AppState) (h : Inv s) :
    Inv (commit s (addParticipant s)) := by
  obtain ⟨h1, h2, h3⟩ := h
  unfold addParticipant
  split_ifs with c
  · exact ⟨h1, h2, h3⟩
  · simp only [not_or] at c
    refine ⟨?_, ?_, ?_⟩
    · simp only [commit]
      rw [List.nodup_append]
      refine ⟨h1, List.nodup_singleton _, ?_⟩
      intro a ha hb
      simp only [List.mem_singleton] at hb
      subst hb
      exact c.2 ha
    · simp only [commit, List.mem_append, List.mem_singleton, not_or]
      exact ⟨h2, fun hx => c.1 hx.symm⟩
    · intro e he
      simp only [commit, List.mem_append]
      exact Or.inl (h3 e he)

theorem inv_removeParticipant (p : String) (s : AppState) (h : Inv s) :
    Inv (commit s (removeParticipant p s)) := by
  obtain ⟨h1, h2, h3⟩ := h
  unfold removeParticipant
  split_ifs with c
  · exact ⟨h1, h2, h3⟩
  · refine ⟨?_, ?_, ?_⟩
    · exact h1.filter _
    · simp only [commit, List.mem_filter, not_and]
      intro hx
      exact absurd hx h2
    · intro e he
      simp only [commit] at he ⊢
      simp only [List.any_eq_true, decide_eq_true_eq, not_exists, not_and] at c
      simp only [List.mem_filter, decide_eq_true_eq]
      exact ⟨h3 e he, c e he⟩

theorem inv_step (s : AppState) (ev : Event) (h : Inv s) : Inv (step s ev) := by
  cases ev with
  | setDescription t => exact h
  | setAmount t => exact h
  | setPayer t => exact h
  | setNewParticipant t => exact h
  | addExpense now => exact inv_addExpense now s h
  | addParticipant => exact inv_addParticipant s h
  | removeParticipant p => exact inv_removeParticipant p s h
  | clearExpenses =>
    refine ⟨h.1, h.2.1, ?_⟩
    intro e he
    simp [step, commit, clearExpenses] at he

theorem inv_run (events : List Event) : ∀ s : AppState, Inv s → Inv (run s events) := by
  induction events with
  | nil => intro s h; exact h
  | cons ev rest ih =>
    intro s h
    exact ih (step s ev) (inv_step s ev h)

theorem inv_of_reachable (s : AppState) (h : Reachable s) : Inv s := by
  obtain ⟨events, rfl⟩ := h
  exact inv_run events initialState inv_initialState


/-! ## The balances object as a table over the participants -/

theorem getProp_map (f : String → JsNum) (p : String) :
    ∀ ps : List String, p ∈ ps → getProp (ps.map (fun q => (q, f q))) p = f p := by
  intro ps
  induction ps with
  | nil => intro h; simp at h
  | cons a rest ih =>
    intro h
    by_cases hpa : p = a
    · subst hpa
      simp [getProp, List.lookup]
    · have hmem : p ∈ rest := by
        rcases List.mem_cons.mp h with h1 | h1
        · exact absurd h1 hpa
        · exact h1
      have hbeq : (p == a) = false := by simpa using hpa
      have := ih hmem
      simp only [getProp, List.map_cons, List.lookup, hbeq] at this ⊢
      exact this

theorem setProp_map (f : String → JsNum) (p : String) (v : JsNum) (ps : List String)
    (hp : p ∈ ps) (hproto : p ≠ "__proto__") :
    setProp (ps.map (fun q => (q, f q))) p v
      = ps.map (fun q => (q, if q = p then v else f q)) := by
  have hany : (ps.map (fun q => (q, f q))).any (fun kv => decide (kv.1 = p)) = true := by
    simp only [List.any_eq_true, List.mem_map, decide_eq_true_eq]
    exact ⟨(p, f p), ⟨p, hp, rfl⟩, rfl⟩
  simp only [setProp, hproto, hany, if_true, if_false, List.map_map]
  apply List.map_congr_left
  intro q _
  by_cases hq : q = p <;> simp [hq]

theorem setProp_append (ps : List String) (p : String) (v : JsNum)
    (hp : p ∉ ps) (hproto : p ≠ "__proto__") (f : String → JsNum) :
    setProp (ps.map (fun q => (q, f q))) p v = ps.map (fun q => (q, f q)) ++ [(p, v)] := by
  have hany : (ps.map (fun q => (q, f q))).any (fun kv => decide (kv.1 = p)) = false := by
    rw [Bool.eq_false_iff]
    intro h
    simp only [List.any_eq_true, List.mem_map, decide_eq_true_eq] at h
    obtain ⟨kv, ⟨q, hq, rfl⟩, hk⟩ := h
    exact hp (hk ▸ hq)
  simp [setProp, hproto, hany]

theorem init_balances (qs : List String) :
    ∀ done : List String, (done ++ qs).Nodup → "__proto__" ∉ qs →
      qs.foldl (fun b p => setProp b p (JsNum.fin 0)) (done.map (fun q => (q, JsNum.fin 0)))
        = (done ++ qs).map (fun q => (q, JsNum.fin 0)) := by
  induction qs with
  | nil => intro done _ _; simp
  | cons a rest ih =>
    intro done hnd hproto
    have ha : a ∉ done := by
      intro h
      have := List.nodup_append.mp hnd
      exact this.2.2 h (List.mem_cons_self _ _)
    have hap : a ≠ "__proto__" := fun h => hproto (h ▸ List.mem_cons_self _ _)
    have hnd2 : ((done ++ [a]) ++ rest).Nodup := by simpa using hnd
    have := ih (done ++ [a]) hnd2 (fun h => hproto (List.mem_cons_of_mem _ h))
    simp only [List.foldl_cons, setProp_append done a (JsNum.fin 0) ha hap]
    simpa using this

theorem inner_loop (g : String → JsNum → JsNum) (ps : List String)
    (hproto : "__proto__" ∉ ps) (qs : List String) :
    ∀ f : String → JsNum, qs.Nodup → (∀ q ∈ qs, q ∈ ps) →
      qs.foldl (fun b p => setProp b p (g p (getProp b p))) (ps.map (fun q => (q, f q)))
        = ps.map (fun q => (q, if q ∈ qs then g q (f q) else f q)) := by
  induction qs with
  | nil => intro f _ _; simp
  | cons a rest ih =>
    intro f hq hsub
    have ha : a ∈ ps := hsub a (List.mem_cons_self _ _)
    have hap : a ≠ "__proto__" := fun h => hproto (h ▸ ha)
    rw [List.nodup_cons] at hq
    simp only [List.foldl_cons]
    rw [getProp_map f a ps ha, setProp_map f a _ ps ha hap,
      ih (fun q => if q = a then g a (f a) else f q) hq.2
        (fun q hqr => hsub q (List.mem_cons_of_mem _ hqr))]
    apply List.map_congr_left
    intro q _
    by_cases hqa : q = a
    · subst hqa
      simp [hq.1]
    · simp [hqa]

/-- With unique names none of which is `__proto__`, the object that `calculateBalances`
returns lists the participants in order, each with the balance `balanceOf`. -/
theorem calculateBalances_eq_map (s : AppState) (hnd : s.participants.Nodup)
    (hproto : "__proto__" ∉ s.participants) :
    calculateBalances s = s.participants.map (fun p => (p, balanceOf s p)) := by
  have hinit := init_balances s.participants [] (by simpa using hnd) hproto
  simp only [List.map_nil, List.nil_append] at hinit
  have houter : ∀ (es : List Expense) (f : String → JsNum),
      es.foldl
        (fun b expense =>
          s.participants.foldl
            (fun b participant =>
              if participant = expense.payer then
                setProp b participant
                  (JsNum.add (getProp b participant)
                    (JsNum.sub expense.amount
                      (JsNum.divNat expense.amount s.participants.length)))
              else
                setProp b participant
                  (JsNum.sub (getProp b participant)
                    (JsNum.divNat expense.amount s.participants.length)))
            b)
        (s.participants.map (fun q => (q, f q)))
      = s.participants.map (fun q => (q,
          es.foldl (fun v expense => applyExpense expense s.participants.length q v) (f q))) := by
    intro es
    induction es with
    | nil => intro f; simp
    | cons e rest ih =>
      intro f
      simp only [List.foldl_cons]
      have hbody : (fun (b : JsObject) (participant : String) =>
            if participant = e.payer then
              setProp b participant
                (JsNum.add (getProp b participant)
                  (JsNum.sub e.amount (JsNum.divNat e.amount s.participants.length)))
            else
              setProp b participant
                (JsNum.sub (getProp b participant)
                  (JsNum.divNat e.amount s.participants.length)))
          = (fun b participant => setProp b participant
              (applyExpense e s.participants.length participant (getProp b participant))) := by
        funext b participant
        unfold applyExpense
        split_ifs <;> rfl
      rw [hbody, inner_loop (applyExpense e s.participants.length) s.participants hproto
        s.participants f hnd (fun q hq => hq)]
      have hmap : s.participants.map (fun q => (q,
            if q ∈ s.participants then applyExpense e s.participants.length q (f q) else f q))
          = s.participants.map (fun q => (q, applyExpense e s.participants.length q (f q))) := by
        apply List.map_congr_left
        intro q hq
        simp [hq]
      rw [hmap, ih (fun q => applyExpense e s.participants.length q (f q))]
  unfold calculateBalances
  simp only []
  rw [hinit]
  exact houter s.expenses (fun _ => JsNum.fin 0)


/-! ## The balance of one participant against the equal-split reference -/

theorem sumAmounts_cons (e : Expense) (es : List Expense) :
    sumAmounts (e :: es) = JsNum.add e.amount (sumAmounts es) := rfl

theorem fold_applyExpense (n : Nat) (hn : n ≠ 0) (p : String) (es : List Expense) :
    ∀ acc : JsNum,
      es.foldl (fun v e => applyExpense e n p v) acc
        = JsNum.add acc
            (JsNum.sub (sumAmounts (es.filter (fun e => decide (e.payer = p))))
              (JsNum.divNat (sumAmounts es) n)) := by
  induction es with
  | nil =>
    intro acc
    have hz : JsNum.sub (JsNum.fin 0) (JsNum.fin 0) = JsNum.fin 0 := by
      simp [JsNum.sub, JsNum.neg, JsNum.add]
    simp only [List.foldl_nil, List.filter_nil, sumAmounts, List.map_nil, List.foldr_nil,
      jsDivNat_zero n hn, hz, jsAdd_zero]
  | cons e rest ih =>
    intro acc
    simp only [List.foldl_cons, ih]
    by_cases hp : e.payer = p
    · have hq : p = e.payer := hp.symm
      simp only [applyExpense, hq, if_true, List.filter_cons, decide_True, sumAmounts_cons,
        JsNum.sub, jsDivNat_add _ _ n hn, jsNeg_add]
      simp only [jsAdd_assoc, jsAdd_left_comm, jsAdd_comm]
    · have hq : ¬ p = e.payer := fun h => hp h.symm
      simp only [applyExpense, hq, hp, if_false, List.filter_cons, decide_False, sumAmounts_cons,
        JsNum.sub, jsDivNat_add _ _ n hn, jsNeg_add, Bool.false_eq_true]
      simp only [jsAdd_assoc, jsAdd_left_comm, jsAdd_comm]

/-- With at least one participant, the balance that the loops of `calculateBalances`
accumulate for a name is the equal-split reference for that name. -/
theorem balanceOf_eq_equalSplit (s : AppState) (hn : s.participants.length ≠ 0) (p : String) :
    balanceOf s p = equalSplit s p := by
  unfold balanceOf equalSplit
  rw [fold_applyExpense s.participants.length hn p s.expenses, jsZero_add]

/-! ## The sum of the balances -/

theorem sumAmounts_fin (es : List Expense) (hfin : ∀ e ∈ es, e.amount.isFinite = true) :
    sumAmounts es = JsNum.fin ((es.map (fun e => e.amount.toRat)).sum) := by
  induction es with
  | nil => rfl
  | cons e rest ih =>
    have he := hfin e (List.mem_cons_self _ _)
    rw [sumAmounts_cons, ih (fun x hx => hfin x (List.mem_cons_of_mem _ hx))]
    cases hamt : e.amount with
    | fin q => simp [JsNum.add, JsNum.toRat, hamt]
    | nan => simp [hamt, JsNum.isFinite] at he
    | posInf => simp [hamt, JsNum.isFinite] at he
    | negInf => simp [hamt, JsNum.isFinite] at he

theorem sumValues_fin (h : String → ℚ) (ps : List String) :
    sumValues (ps.map (fun p => (p, JsNum.fin (h p)))) = JsNum.fin ((ps.map h).sum) := by
  have key : ∀ (qs : List String) (acc : ℚ),
      (qs.map (fun p => (p, JsNum.fin (h p)))).foldl (fun a kv => JsNum.add a kv.2)
          (JsNum.fin acc)
        = JsNum.fin (acc + (qs.map h).sum) := by
    intro qs
    have hadd : ∀ x y : ℚ, JsNum.add (JsNum.fin x) (JsNum.fin y) = JsNum.fin (x + y) :=
      fun _ _ => rfl
    induction qs with
    | nil => intro acc; simp
    | cons a rest ih =>
      intro acc
      simp only [List.map_cons, List.foldl_cons, hadd, ih, List.sum_cons, add_assoc]
  have := key ps 0
  simpa [sumValues] using this

theorem sum_map_sub_const (h : String → ℚ) (c : ℚ) (ps : List String) :
    (ps.map (fun p => h p - c)).sum = (ps.map h).sum - (ps.length : ℚ) * c := by
  induction ps with
  | nil => simp
  | cons a rest ih =>
    simp only [List.map_cons, List.sum_cons, ih, List.length_cons, Nat.cast_add, Nat.cast_one]
    ring

theorem sum_indicator (x : String) (a : ℚ) (ps : List String) (hnd : ps.Nodup) :
    (ps.map (fun p => if x = p then a else 0)).sum = if x ∈ ps then a else 0 := by
  induction ps with
  | nil => simp
  | cons b rest ih =>
    rw [List.nodup_cons] at hnd
    simp only [List.map_cons, List.sum_cons, ih hnd.2, List.mem_cons]
    by_cases hxb : x = b
    · subst hxb
      simp [hnd.1]
    · simp [hxb]

theorem sum_paid (ps : List String) (hnd : ps.Nodup) (es : List Expense)
    (hpay : ∀ e ∈ es, e.payer ∈ ps) :
    (ps.map (fun p =>
        ((es.filter (fun e => decide (e.payer = p))).map (fun e => e.amount.toRat)).sum)).sum
      = (es.map (fun e => e.amount.toRat)).sum := by
  induction es with
  | nil => simp
  | cons e rest ih =>
    have hsplit : ∀ p : String,
        (((e :: rest).filter (fun e => decide (e.payer = p))).map (fun e => e.amount.toRat)).sum
          = (if e.payer = p then e.amount.toRat else 0)
            + ((rest.filter (fun e => decide (e.payer = p))).map (fun e => e.amount.toRat)).sum := by
      intro p
      by_cases hp : e.payer = p <;> simp [List.filter_cons, hp]
    simp only [hsplit, List.sum_map_add, List.map_cons, List.sum_cons]
    rw [sum_indicator e.payer e.amount.toRat ps hnd,
      ih (fun x hx => hpay x (List.mem_cons_of_mem _ hx))]
    simp [hpay e (List.mem_cons_self _ _)]

/-- When the names are unique, none is `__proto__`, every payer is a participant and every
stored amount is finite, the values of `calculateBalances` add up to exactly 0. -/
theorem sumValues_calculateBalances (s : AppState) (hnd : s.participants.Nodup)
    (hproto : "__proto__" ∉ s.participants)
    (hpay : ∀ e ∈ s.expenses, e.payer ∈ s.participants)
    (hfin : ∀ e ∈ s.expenses, e.amount.isFinite = true) :
    sumValues (calculateBalances s) = JsNum.fin 0 := by
  rw [calculateBalances_eq_map s hnd hproto]
  by_cases hn : s.participants.length = 0
  · rw [List.length_eq_zero] at hn
    rw [hn]
    rfl
  · have hbal : ∀ p : String, balanceOf s p
        = JsNum.fin (((s.expenses.filter (fun e => decide (e.payer = p))).map
              (fun e => e.amount.toRat)).sum
            - (s.expenses.map (fun e => e.amount.toRat)).sum / (s.participants.length : ℚ)) := by
      intro p
      rw [balanceOf_eq_equalSplit s hn p]
      unfold equalSplit
      rw [sumAmounts_fin s.expenses hfin,
        sumAmounts_fin _ (fun e he => hfin e (List.mem_of_mem_filter he))]
      simp [JsNum.sub, JsNum.neg, JsNum.add, JsNum.divNat, hn, sub_eq_add_neg]
    simp only [hbal]
    rw [sumValues_fin]
    congr 1
    rw [sum_map_sub_const, sum_paid s.participants hnd s.expenses hpay]
    have hn1 : (s.participants.length : ℚ) ≠ 0 := by exact_mod_cast hn
    field_simp


/-! ## `addExpense` -/

theorem invalid_iff_not_gtZero (a : String) :
    (a = "" ∨ isNaN a = true ∨ (Number a).leZero = true) ↔ (Number a).gtZero = false := by
  constructor
  · rintro (h | h | h)
    · subst h
      have h0 : Number "" = JsNum.fin 0 := by decide
      simp [h0, JsNum.gtZero]
    · unfold isNaN at h
      cases hn : Number a <;> simp [hn, JsNum.gtZero] at h ⊢
    · cases hn : Number a <;> simp [hn, JsNum.leZero, JsNum.gtZero] at h ⊢
      exact h
  · intro h
    right
    unfold isNaN
    cases hn : Number a <;> simp [hn, JsNum.leZero, JsNum.gtZero] at h ⊢
    exact h

/-- When no participant has the empty name (as in every reachable state), `addExpense` is
rejected exactly when the description is empty, or `Number(amount)` is not a number greater
than 0, or the payer is not a participant; a rejected call changes nothing; an accepted
call appends one expense with the description, `parseFloat(amount)` and the payer, and
leaves the participants alone. -/
theorem addExpense_spec (now : Nat) (s : AppState) (hempty : "" ∉ s.participants) :
    (rejected (addExpense now s) = true ↔
      s.description = "" ∨ (Number s.amount).gtZero = false ∨ s.payer ∉ s.participants) ∧
    (rejected (addExpense now s) = true → commit s (addExpense now s) = s) ∧
    (rejected (addExpense now s) = false →
      (commit s (addExpense now s)).expenses = s.expenses ++
        [{ id := toString now, description := s.description,
           amount := parseFloat s.amount, payer := s.payer }] ∧
      (commit s (addExpense now s)).participants = s.participants) := by
  have hinv := invalid_iff_not_gtZero s.amount
  have hpayer : s.payer = "" → s.payer ∉ s.participants := fun h => h ▸ hempty
  unfold addExpense
  split_ifs with c1 c2
  · refine ⟨?_, fun _ => rfl, fun h => by simp [rejected] at h⟩
    simp only [rejected, true_iff]
    rcases c1 with h | h | h | h | h
    · exact Or.inl h
    · exact Or.inr (Or.inl (hinv.mp (Or.inl h)))
    · exact Or.inr (Or.inr (hpayer h))
    · exact Or.inr (Or.inl (hinv.mp (Or.inr (Or.inl h))))
    · exact Or.inr (Or.inl (hinv.mp (Or.inr (Or.inr h))))
  · refine ⟨?_, fun h => by simp [rejected] at h, fun _ => ⟨rfl, rfl⟩⟩
    simp only [rejected, Bool.false_eq_true, false_iff, not_or]
    simp only [not_or] at c1
    refine ⟨c1.1, ?_, not_not.mpr c2⟩
    intro hg
    rcases hinv.mpr hg with h | h | h
    · exact c1.2.1 h
    · exact c1.2.2.2.1 h
    · exact c1.2.2.2.2 h
  · refine ⟨?_, fun _ => rfl, fun h => by simp [rejected] at h⟩
    simp only [rejected, true_iff]
    exact Or.inr (Or.inr c2)

theorem addExpense_spec_witness :
    "" ∉ ({ initialState with description := "lunch", amount := "100", payer := "Ayush" }
        : AppState).participants ∧
    rejected (addExpense 1
      { initialState with description := "lunch", amount := "100", payer := "Ayush" }) = false :=
  ⟨by decide, by
    have h := (addExpense_spec 1
      { initialState with description := "lunch", amount := "100", payer := "Ayush" }
      (by decide)).1
    rw [Bool.eq_false_iff]
    intro hr
    rcases h.mp hr with h1 | h1 | h1
    · exact absurd h1 (by decide)
    · simp [number_100, JsNum.gtZero] at h1
    · exact h1 (by decide)⟩


/-! ## The handlers one by one -/

/-- C3: `removeParticipant(name)` is rejected exactly when some stored expense has payer
`name`; a rejected call leaves the whole state as it was; an accepted call keeps the other
names in their order, drops `name`, and leaves the expenses alone. -/
theorem removeParticipant_spec (name : String) (s : AppState) :
    (rejected (removeParticipant name s) = true ↔ ∃ e ∈ s.expenses, e.payer = name) ∧
    (rejected (removeParticipant name s) = true → commit s (removeParticipant name s) = s) ∧
    (rejected (removeParticipant name s) = false →
      (commit s (removeParticipant name s)).participants
          = s.participants.filter (fun p => decide (p ≠ name)) ∧
      name ∉ (commit s (removeParticipant name s)).participants ∧
      (commit s (removeParticipant name s)).participants.Sublist s.participants ∧
      (∀ p ∈ s.participants, p ≠ name → p ∈ (commit s (removeParticipant name s)).participants) ∧
      (commit s (removeParticipant name s)).expenses = s.expenses) := by
  unfold removeParticipant
  split_ifs with c
  · simp only [List.any_eq_true, decide_eq_true_eq] at c
    simp [rejected, commit, c]
  · have c1 := c
    simp only [List.any_eq_true, decide_eq_true_eq] at c1
    refine ⟨by simp [rejected, c1], by simp [rejected], ?_⟩
    intro _
    refine ⟨rfl, ?_, ?_, ?_, rfl⟩
    · simp [commit, List.mem_filter]
    · exact List.filter_sublist _
    · intro p hp hne
      simp [commit, List.mem_filter, hp, hne]

/-- C5: `addParticipant` with `name` in the input field is rejected exactly when `name` is
empty or already a participant under exact string equality; a rejected call leaves the
participants as they were, an accepted call appends `name` at the end, and the expenses are
the same in both cases. With only `Alice` present, `alice` is accepted. -/
theorem addParticipant_spec (s : AppState) :
    (rejected (addParticipant s) = true ↔
      s.newParticipant = "" ∨ s.newParticipant ∈ s.participants) ∧
    (rejected (addParticipant s) = true →
      (commit s (addParticipant s)).participants = s.participants) ∧
    (rejected (addParticipant s) = false →
      (commit s (addParticipant s)).participants = s.participants ++ [s.newParticipant]) ∧
    (commit s (addParticipant s)).expenses = s.expenses ∧
    rejected (addParticipant
      { initialState with participants := ["Alice"], newParticipant := "alice" }) = false := by
  refine ⟨?_, ?_, ?_, ?_, by decide⟩
  all_goals
    unfold addParticipant
    split_ifs with c
    · simp [rejected, commit, c]
    · simp [rejected, commit, c]

/-! ## Invariants of the reachable states -/

/-- C6: in every reachable state the participant list holds no name twice. -/
theorem participants_nodup (s : AppState) (h : Reachable s) : s.participants.Nodup :=
  (inv_of_reachable s h).1

/-- C10: in every reachable state each stored expense has a payer who is a participant, so
a non-empty expense list comes with at least one participant and the divisor
`participants.length` of `calculateBalances` is not zero whenever the division runs. -/
theorem payer_is_participant (s : AppState) (h : Reachable s) :
    (∀ e ∈ s.expenses, e.payer ∈ s.participants) ∧
    (s.expenses ≠ [] → 1 ≤ s.participants.length) ∧
    (∀ e ∈ s.expenses, s.participants.length ≠ 0) := by
  have h3 := (inv_of_reachable s h).2.2
  have key : ∀ e ∈ s.expenses, s.participants.length ≠ 0 := by
    intro e he hlen
    have hm := h3 e he
    rw [List.length_eq_zero] at hlen
    rw [hlen] at hm
    simp at hm
  refine ⟨h3, ?_, key⟩
  intro hne
  obtain ⟨e, he⟩ := List.exists_mem_of_ne_nil _ hne
  exact Nat.one_le_iff_ne_zero.mpr (key e he)


/-! ## Adding several participants -/

theorem run_addAll (names : List String) :
    ∀ s : AppState, names.Nodup → (∀ n ∈ names, n ≠ "") → (∀ n ∈ names, n ∉ s.participants) →
      (run s (addAll names)).participants = s.participants ++ names := by
  induction names with
  | nil => intro s _ _ _; simp [addAll, run]
  | cons n rest ih =>
    intro s hnd hne hnot
    have hn : n ∉ s.participants := hnot n (List.mem_cons_self _ _)
    have hn0 : n ≠ "" := hne n (List.mem_cons_self _ _)
    rw [List.nodup_cons] at hnd
    have hstep : run s (addAll (n :: rest))
        = run { s with participants := s.participants ++ [n], newParticipant := "" }
            (addAll rest) := by
      simp [addAll, run, step, addParticipant, commit, hn, hn0]
    rw [hstep, ih _ hnd.2 (fun m hm => hne m (List.mem_cons_of_mem _ hm))]
    · simp
    · intro m hm
      simp only [List.mem_append, List.mem_singleton, not_or]
      refine ⟨hnot m (List.mem_cons_of_mem _ hm), ?_⟩
      intro hmn
      exact hnd.1 (hmn ▸ hm)

/-- C9, as stated, fails: the first render already holds four names, so adding the single
name `Zed` from the initial state does not give the list `[Zed]`. -/
theorem addAll_initial_counterexample :
    (["Zed"] : List String) ≠ [] ∧ (["Zed"] : List String).Nodup ∧
    (∀ n ∈ (["Zed"] : List String), n ≠ "") ∧
    (run initialState (addAll ["Zed"])).participants ≠ ["Zed"] := by
  refine ⟨by decide, by decide, by decide, ?_⟩
  decide

/-- C9, amended: from the initial state, adding pairwise distinct non-empty names none of
which is one of the four initial names yields the four initial names followed by exactly
those names, in order, with no name twice. -/
theorem addAll_initial (names : List String) (hnd : names.Nodup)
    (hne : ∀ n ∈ names, n ≠ "") (hnew : ∀ n ∈ names, n ∉ initialState.participants) :
    (run initialState (addAll names)).participants
        = ["Ayush", "Harsh", "Laxmikant", "Mudassir"] ++ names ∧
    (run initialState (addAll names)).participants.Nodup := by
  refine ⟨run_addAll names initialState hnd hne hnew, ?_⟩
  exact (inv_run (addAll names) initialState inv_initialState).1

theorem addAll_initial_witness :
    (["Zed", "Yan"] : List String).Nodup ∧
    (∀ n ∈ (["Zed", "Yan"] : List String), n ≠ "") ∧
    (∀ n ∈ (["Zed", "Yan"] : List String), n ∉ initialState.participants) ∧
    ((run initialState (addAll ["Zed", "Yan"])).participants
        = ["Ayush", "Harsh", "Laxmikant", "Mudassir"] ++ ["Zed", "Yan"] ∧
      (run initialState (addAll ["Zed", "Yan"])).participants.Nodup) :=
  ⟨by decide, by decide, by decide,
    addAll_initial ["Zed", "Yan"] (by decide) (by decide) (by decide)⟩

theorem participants_nodup_witness :
    Reachable (run initialState (addAll ["Zed", "Zed", "Ayush"])) ∧
    (run initialState (addAll ["Zed", "Zed", "Ayush"])).participants.Nodup :=
  ⟨⟨_, rfl⟩, participants_nodup _ ⟨_, rfl⟩⟩

theorem payer_is_participant_witness :
    Reachable (run initialState (enterExpense "lunch" "100" "Ayush" 1)) ∧
    (run initialState (enterExpense "lunch" "100" "Ayush" 1)).expenses ≠ [] ∧
    ((∀ e ∈ (run initialState (enterExpense "lunch" "100" "Ayush" 1)).expenses,
        e.payer ∈ (run initialState (enterExpense "lunch" "100" "Ayush" 1)).participants) ∧
      ((run initialState (enterExpense "lunch" "100" "Ayush" 1)).expenses ≠ [] →
        1 ≤ (run initialState (enterExpense "lunch" "100" "Ayush" 1)).participants.length) ∧
      (∀ e ∈ (run initialState (enterExpense "lunch" "100" "Ayush" 1)).expenses,
        (run initialState (enterExpense "lunch" "100" "Ayush" 1)).participants.length ≠ 0)) :=
  ⟨⟨_, rfl⟩, by rw [run_lunch]; simp, payer_is_participant _ ⟨_, rfl⟩⟩


/-! ## Evaluations -/

theorem run_hex :
    run initialState (enterExpense "taxi" "0x10" "Ayush" 1)
      = { initialState with expenses := [⟨"1", "taxi", JsNum.fin 0, "Ayush"⟩] } := by
  simp [run, enterExpense, step, addExpense, commit, initialState,
    isNaN, number_hex, parseFloat_hex, JsNum.leZero]
  rfl

theorem run_only_proto :
    run initialState
        ([Event.removeParticipant "Ayush", Event.removeParticipant "Harsh",
          Event.removeParticipant "Laxmikant", Event.removeParticipant "Mudassir"]
          ++ addAll ["__proto__"] ++ [Event.clearExpenses])
      = { initialState with participants := ["__proto__"] } := by
  simp [run, addAll, step, removeParticipant, addParticipant, clearExpenses, commit,
    initialState]

/-- The first scenario of the specification: participants `[A, B]` and one expense of 100
paid by `A` give the balances `A: 50, B: -50`. -/
theorem scenario_lunch :
    calculateBalances
        { initialState with
          participants := ["A", "B"]
          expenses := [⟨"1", "lunch", JsNum.fin 100, "A"⟩] }
      = [("A", JsNum.fin 50), ("B", JsNum.fin (-50))] := by
  simp [calculateBalances, initialState, setProp, getProp, JsNum.add, JsNum.sub, JsNum.neg,
    JsNum.divNat, List.lookup]
  norm_num

/-- The second scenario of the specification: participants `[A, B, C]`, one expense of 90
paid by `A`, then `D` is added; the expense is split four ways. -/
theorem scenario_retroactive :
    rejected (addParticipant
        { initialState with
          participants := ["A", "B", "C"]
          expenses := [⟨"1", "dinner", JsNum.fin 90, "A"⟩]
          newParticipant := "D" }) = false ∧
    calculateBalances (commit
        { initialState with
          participants := ["A", "B", "C"]
          expenses := [⟨"1", "dinner", JsNum.fin 90, "A"⟩]
          newParticipant := "D" }
        (addParticipant
          { initialState with
            participants := ["A", "B", "C"]
            expenses := [⟨"1", "dinner", JsNum.fin 90, "A"⟩]
            newParticipant := "D" }))
      = [("A", JsNum.fin (135 / 2)), ("B", JsNum.fin (-45 / 2)), ("C", JsNum.fin (-45 / 2)),
          ("D", JsNum.fin (-45 / 2))] := by
  refine ⟨by decide, ?_⟩
  simp [calculateBalances, addParticipant, commit, initialState, setProp, getProp, JsNum.add,
    JsNum.sub, JsNum.neg, JsNum.divNat, List.lookup]
  norm_num

/-- With unique names none of which is `__proto__` and at least one participant, the object
of `calculateBalances` lists every participant with the equal-split reference value. -/
theorem calculateBalances_eq_equalSplit (s : AppState) (hnd : s.participants.Nodup)
    (hproto : "__proto__" ∉ s.participants) :
    calculateBalances s = s.participants.map (fun p => (p, equalSplit s p)) := by
  rw [calculateBalances_eq_map s hnd hproto]
  apply List.map_congr_left
  intro p hp
  have hn : s.participants.length ≠ 0 := by
    intro h
    rw [List.length_eq_zero] at h
    rw [h] at hp
    simp at hp
  rw [balanceOf_eq_equalSplit s hn p]

/-- With unique names none of which is `__proto__`, after `clearExpenses` the object of
`calculateBalances` lists every participant with the value 0. -/
theorem calculateBalances_after_clear (s : AppState) (hnd : s.participants.Nodup)
    (hproto : "__proto__" ∉ s.participants) :
    calculateBalances (commit s (clearExpenses s))
      = s.participants.map (fun p => (p, JsNum.fin 0)) := by
  have h := calculateBalances_eq_map (commit s (clearExpenses s)) hnd hproto
  rw [h]
  rfl

/-! ## Where the code leaves the specification -/

/-- C1: the closure invariant fails in reachable states. After `__proto__` is added as a
fifth participant and `Ayush` pays 100, `calculateBalances` has four entries, 80 and three
times -20, which add up to 20; and after an expense with the amount text `Infinity`, which
`addExpense` accepts, the values add up to `NaN`. -/
theorem closure_fails :
    Reachable (run initialState (addAll ["__proto__"] ++ enterExpense "lunch" "100" "Ayush" 1)) ∧
    calculateBalances
        (run initialState (addAll ["__proto__"] ++ enterExpense "lunch" "100" "Ayush" 1))
      = [("Ayush", JsNum.fin 80), ("Harsh", JsNum.fin (-20)), ("Laxmikant", JsNum.fin (-20)),
          ("Mudassir", JsNum.fin (-20))] ∧
    sumValues (calculateBalances
        (run initialState (addAll ["__proto__"] ++ enterExpense "lunch" "100" "Ayush" 1)))
      = JsNum.fin 20 ∧
    Reachable (run initialState (enterExpense "gift" "Infinity" "Ayush" 2)) ∧
    sumValues (calculateBalances (run initialState (enterExpense "gift" "Infinity" "Ayush" 2)))
      = JsNum.nan := by
  refine ⟨⟨_, rfl⟩, ?_, ?_, ⟨_, rfl⟩, ?_⟩
  · rw [run_proto_lunch, balances_proto_lunch]
  · rw [run_proto_lunch, balances_proto_lunch]
    simp [sumValues, JsNum.add]
    norm_num
  · rw [run_infinity, balances_infinity]
    simp [sumValues, JsNum.add]

/-- C2: with the two distinct participants `A` and `__proto__` and one expense of 100 paid
by `A`, the equal-split reference gives `__proto__` the value -50, but the object of
`calculateBalances` has the single entry `A: 50` and nothing for `__proto__`. -/
theorem equalSplit_fails :
    (["A", "__proto__"] : List String).Nodup ∧
    1 ≤ (["A", "__proto__"] : List String).length ∧
    equalSplit
        { initialState with
          participants := ["A", "__proto__"]
          expenses := [⟨"1", "lunch", JsNum.fin 100, "A"⟩] } "__proto__"
      = JsNum.fin (-50) ∧
    calculateBalances
        { initialState with
          participants := ["A", "__proto__"]
          expenses := [⟨"1", "lunch", JsNum.fin 100, "A"⟩] }
      = [("A", JsNum.fin 50)] ∧
    List.lookup "__proto__" (calculateBalances
        { initialState with
          participants := ["A", "__proto__"]
          expenses := [⟨"1", "lunch", JsNum.fin 100, "A"⟩] }) = none := by
  have hb : calculateBalances
        { initialState with
          participants := ["A", "__proto__"]
          expenses := [⟨"1", "lunch", JsNum.fin 100, "A"⟩] }
      = [("A", JsNum.fin 50)] := by
    simp [calculateBalances, initialState, setProp, getProp, JsNum.add, JsNum.sub, JsNum.neg,
      JsNum.divNat, List.lookup]
    norm_num
  refine ⟨by decide, by decide, ?_, hb, ?_⟩
  · simp [equalSplit, sumAmounts, initialState, JsNum.add, JsNum.sub, JsNum.neg, JsNum.divNat]
    norm_num
  · rw [hb]
    decide

/-- C4: with the amount text `0x10` the call is accepted, because `Number` reads 16, but the
appended expense carries `parseFloat` of the text, which is 0. -/
theorem addExpense_hex :
    rejected (addExpense 1
      { initialState with description := "taxi", amount := "0x10", payer := "Ayush" }) = false ∧
    Number "0x10" = JsNum.fin 16 ∧
    (commit { initialState with description := "taxi", amount := "0x10", payer := "Ayush" }
      (addExpense 1
        { initialState with description := "taxi", amount := "0x10", payer := "Ayush" })).expenses
      = [⟨"1", "taxi", JsNum.fin 0, "Ayush"⟩] := by
  refine ⟨?_, number_hex, ?_⟩
  · have h16 : ¬ ((16 : ℚ) ≤ 0) := by norm_num
    simp [addExpense, rejected, initialState, isNaN, number_hex, JsNum.leZero, h16]
  · have h16 : ¬ ((16 : ℚ) ≤ 0) := by norm_num
    simp [addExpense, commit, initialState, isNaN, number_hex, parseFloat_hex, JsNum.leZero, h16]
    rfl

/-- C7: a reachable state stores an expense whose amount is not greater than 0: the amount
text `0x10` passes `isNaN` and `Number(amount) <= 0`, and `parseFloat` stores 0. Another
reachable state stores an amount that is not finite: the text `Infinity` passes the same
checks and is stored as `+Infinity`. -/
theorem stored_amount_fails :
    isNaN "0x10" = false ∧ (Number "0x10").leZero = false ∧
    Reachable (run initialState (enterExpense "taxi" "0x10" "Ayush" 1)) ∧
    (run initialState (enterExpense "taxi" "0x10" "Ayush" 1)).expenses
      = [⟨"1", "taxi", JsNum.fin 0, "Ayush"⟩] ∧
    (JsNum.fin 0).gtZero = false ∧
    Reachable (run initialState (enterExpense "gift" "Infinity" "Ayush" 2)) ∧
    (run initialState (enterExpense "gift" "Infinity" "Ayush" 2)).expenses
      = [⟨"2", "gift", JsNum.posInf, "Ayush"⟩] ∧
    JsNum.posInf.isFinite = false := by
  refine ⟨?_, ?_, ⟨_, rfl⟩, ?_, ?_, ⟨_, rfl⟩, ?_, rfl⟩
  · simp [isNaN, number_hex]
  · simp [number_hex, JsNum.leZero]
  · rw [run_hex]
  · simp [JsNum.gtZero]
  · rw [run_infinity]

/-- C8: `clearExpenses` is never rejected, keeps the participants and empties the expenses;
but in the reachable state whose only participant is `__proto__`, the participant list is
not empty and `calculateBalances` after `clearExpenses` is the empty object, with no value
for that participant. -/
theorem clear_balances_fails :
    (∀ s : AppState, rejected (clearExpenses s) = false ∧
      (commit s (clearExpenses s)).participants = s.participants ∧
      (commit s (clearExpenses s)).expenses = []) ∧
    Reachable { initialState with participants := ["__proto__"] } ∧
    (commit { initialState with participants := ["__proto__"] }
      (clearExpenses { initialState with participants := ["__proto__"] })).participants
      = ["__proto__"] ∧
    calculateBalances (commit { initialState with participants := ["__proto__"] }
      (clearExpenses { initialState with participants := ["__proto__"] })) = [] := by
  refine ⟨fun s => ⟨rfl, rfl, rfl⟩, ⟨_, run_only_proto⟩, rfl, ?_⟩
  simp [calculateBalances, clearExpenses, commit, initialState, setProp]

end ExpenseSplitter
